import Mathlib

/-!
Shallow embedding of src/receive_data_chunks.py.

Numeric values (Python floats) are modelled as rationals.  The numpy arrays
involved are the data ring buffer of shape (buffer_size, n_channels) and the
timestamp buffer of shape (buffer_size, 3); the latter is represented by its
three columns, since the source manipulates it column by column.

numpy slice assignment dst[k:, ...] = src succeeds exactly when src is
broadcastable to the target region: comparing shapes right-aligned, every
source dimension must equal the target dimension or be 1.  A dimension-1
source axis is repeated across the target axis.  np.array of a non-empty
rectangular list of lists is a 2-D array; np.array of the empty list is the
1-D array of shape (0,).  The overlapping left-shift assignments
dst[0:m] = dst[n:] copy forward (destination index below source index), so
they behave as a pure left shift.
-/

/-- Error raised by a numpy operation (a ValueError in Python): either a
broadcast shape mismatch on slice assignment, or np.array applied to a ragged
nested list. -/
inductive NpError where
  | broadcastMismatch : NpError
  | raggedArray : NpError
deriving DecidableEq, Repr

/-- A numpy array as produced by np.array on the inputs of this program:
either 1-D or a rectangular 2-D array given by its rows. -/
inductive NpArr where
  | d1 : List ℚ → NpArr
  | d2 : List (List ℚ) → NpArr
deriving DecidableEq, Repr

/-- np.array on a nested list: the empty list gives the 1-D empty array of
shape (0,); a non-empty list of equal-length rows gives a 2-D array; ragged
rows raise a ValueError. -/
def npArray (xs : List (List ℚ)) : Except NpError NpArr :=
  match xs with
  | [] => .ok (.d1 [])
  | r :: rs =>
      if ∀ s ∈ rs, s.length = r.length then .ok (.d2 (r :: rs))
      else .error .raggedArray

/-- shape[0] of an array. -/
def NpArr.shape0 : NpArr → ℕ
  | .d1 xs => xs.length
  | .d2 rs => rs.length

/-- Broadcast a source row of width w into a destination row of width c;
the caller has already checked w = c or w = 1. -/
def broadcastRow (c : ℕ) (r : List ℚ) : List ℚ :=
  if r.length = c then r else List.replicate c r.headI

/-- dst[k:, :] = src for a 2-D destination dst whose rows have width c.
The target region has dst.length - k rows of width c; src must be
broadcastable to that shape. -/
def setRowsSuffix (dst : List (List ℚ)) (c k : ℕ) (src : NpArr) :
    Except NpError (List (List ℚ)) :=
  match src with
  | .d1 xs =>
      if xs.length = c ∨ xs.length = 1 then
        .ok (dst.take k ++ List.replicate (dst.length - k) (broadcastRow c xs))
      else .error .broadcastMismatch
  | .d2 rs =>
      if (rs.length = dst.length - k ∨ rs.length = 1) ∧
          (rs.headI.length = c ∨ rs.headI.length = 1) then
        .ok (dst.take k ++
          (if rs.length = dst.length - k then rs.map (broadcastRow c)
           else List.replicate (dst.length - k) (broadcastRow c rs.headI)))
      else .error .broadcastMismatch

/-- dst[k:] = src for a 1-D destination and a 1-D source: src must have the
region's length or length 1. -/
def setColSuffix (dst : List ℚ) (k : ℕ) (src : List ℚ) :
    Except NpError (List ℚ) :=
  if src.length = dst.length - k ∨ src.length = 1 then
    .ok (dst.take k ++
      (if src.length = dst.length - k then src
       else List.replicate (dst.length - k) src.headI))
  else .error .broadcastMismatch

/-- dst[k:] = v for a scalar v: a scalar always broadcasts. -/
def setColSuffixScalar (dst : List ℚ) (k : ℕ) (v : ℚ) : List ℚ :=
  dst.take k ++ List.replicate (dst.length - k) v

/-- The two arrays owned by main: data_buffer of shape
(buffer_size, n_channels), created as np.zeros((buffer_size, channel_count)),
and timestamp_buffer of shape (buffer_size, 3) kept as its three columns
(host timestamp, client local time, time correction offset). -/
structure Buffers where
  nch : ℕ
  data : List (List ℚ)
  tsHost : List ℚ
  tsLocal : List ℚ
  tsOffset : List ℚ
deriving DecidableEq, Repr

/-- getRingbufferValues (source lines 25-66), statement by statement.  The
Python function mutates the two arrays in place and an exception aborts it
midway, so the model returns the error (if any) together with the buffer
state at the instant the function returns or raises. -/
def getRingbufferValues (chunk : List (List ℚ)) (timestamps : List ℚ)
    (current_local_time timestamp_offset : ℚ) (bufs : Buffers) :
    Option NpError × Buffers :=
  match npArray chunk with
  | .error e => (some e, bufs)
  | .ok current_chunk =>
    let n_samples := current_chunk.shape0
    -- temp_data = data_buffer[n_samples:, :]
    let temp_data := bufs.data.drop n_samples
    -- data_buffer[0:temp_data.shape[0], :] = temp_data
    -- (source and target have identical shape, so this cannot fail)
    let data1 := temp_data ++ bufs.data.drop temp_data.length
    -- data_buffer[temp_data.shape[0]:, :] = current_chunk
    match setRowsSuffix data1 bufs.nch temp_data.length current_chunk with
    | .error e => (some e, { bufs with data := data1 })
    | .ok data2 =>
      -- current_timestamp_buffer = np.array(timestamps), a 1-D array
      -- temp_time = timestamp_buffer[n_samples:, 0]
      let temp_time := bufs.tsHost.drop n_samples
      -- timestamp_buffer[0:temp_time.shape[0], 0] = temp_time
      let tsHost1 := temp_time ++ bufs.tsHost.drop temp_time.length
      -- timestamp_buffer[temp_time.shape[0]:, 0] = current_timestamp_buffer
      match setColSuffix tsHost1 temp_time.length timestamps with
      | .error e => (some e, { bufs with data := data2, tsHost := tsHost1 })
      | .ok tsHost2 =>
        -- temp_local_time = timestamp_buffer[n_samples:, 1]
        let temp_local := bufs.tsLocal.drop n_samples
        let tsLocal1 := temp_local ++ bufs.tsLocal.drop temp_local.length
        let tsLocal2 := setColSuffixScalar tsLocal1 temp_local.length current_local_time
        -- temp_offset_time = timestamp_buffer[n_samples:, 2]
        let temp_off := bufs.tsOffset.drop n_samples
        let tsOffset1 := temp_off ++ bufs.tsOffset.drop temp_off.length
        let tsOffset2 := setColSuffixScalar tsOffset1 temp_off.length timestamp_offset
        (none, { bufs with data := data2, tsHost := tsHost2,
                           tsLocal := tsLocal2, tsOffset := tsOffset2 })

/-- The two timing quantities computed by sendDetectedError (source lines
81-82) from one timestamp-buffer row (host timestamp, client local receipt
time, clock offset) and the detection-time clock reading.  The HTTP post that
ships them is external I/O and not modelled. -/
def sendDetectedErrorTimings (timestamp_buffer_vals : ℚ × ℚ × ℚ)
    (local_clock_time : ℚ) : ℚ × ℚ :=
  let comm_delay := timestamp_buffer_vals.2.1 - timestamp_buffer_vals.1 -
    timestamp_buffer_vals.2.2
  let computation_time := local_clock_time - timestamp_buffer_vals.2.1
  (comm_delay, computation_time)

/-!
Model of the while-loop of main (source lines 141-180).  Timing is idealized:
perf_counter and local_clock read the model time, every statement other than
the throttle busy-wait is instantaneous, and each iteration begins the
instant the previous one ends.  The buffer update of a processed chunk is
abstracted to recording the time at which it happened.  The variable
old_time is a Python local that is first assigned at line 180, at the end of
the first completed iteration; reading it before that raises a NameError
(UnboundLocalError), modelled by the none case.
-/

/-- State of main's loop between iterations: the current clock reading, the
old_time variable (none while still unassigned), the times at which chunks
were appended to the buffers, and whether a NameError has been raised (which
terminates the program, so it absorbs every later step). -/
structure LoopState where
  now : ℚ
  old_time : Option ℚ
  processed : List ℚ
  nameError : Bool
deriving DecidableEq, Repr

/-- One iteration of main's while-loop.  hasChunk is the poll result of
inlet.pull_chunk().  On a chunk: the buffers are updated at the current time,
then the busy-wait spins until perf_counter() - old_time reaches
dt_read_buffer (raising NameError if old_time is unassigned), and line 180
stores the exit time in old_time.  On an empty poll only line 180 runs. -/
def mainLoopStep (dt_read_buffer : ℚ) (s : LoopState) (hasChunk : Bool) :
    LoopState :=
  if s.nameError then s
  else if hasChunk then
    let s1 := { s with processed := s.processed ++ [s.now] }
    match s.old_time with
    | none => { s1 with nameError := true }
    | some ot =>
        let exit := max s1.now (ot + dt_read_buffer)
        { s1 with now := exit, old_time := some exit }
  else { s with old_time := some s.now }

/-- Run main's loop over a finite list of poll results. -/
def mainLoopRun (dt : ℚ) (s : LoopState) (polls : List Bool) : LoopState :=
  polls.foldl (mainLoopStep dt) s

/-- The loop state when main reaches the while-loop at time t0: old_time has
never been assigned. -/
def initLoopState (t0 : ℚ) : LoopState :=
  { now := t0, old_time := none, processed := [], nameError := false }


/-- The invariant maintained by main's loop: the recorded processing times
are spaced at least dt apart; while no NameError has occurred, old_time is
either still unassigned (and then nothing has been processed) or holds the
current instant, and every processed time lies at least dt before the
current instant is passed. -/
def LoopInv (dt : ℚ) (s : LoopState) : Prop :=
  List.Chain' (fun a b => a + dt ≤ b) s.processed ∧
  (s.nameError = false →
    (s.old_time = none → s.processed = []) ∧
    (∀ ot, s.old_time = some ot → ot = s.now) ∧
    (∀ x ∈ s.processed, x + dt ≤ s.now))


lemma map_broadcastRow_self (c : ℕ) (rs : List (List ℚ))
    (hw : ∀ r ∈ rs, r.length = c) : rs.map (broadcastRow c) = rs := by
  induction rs with
  | nil => rfl
  | cons r rs ih =>
      simp only [List.map_cons, List.cons.injEq]
      constructor
      · rw [broadcastRow, if_pos (hw r (List.mem_cons_self r rs))]
      · exact ih fun x hx => hw x (List.mem_cons_of_mem _ hx)

lemma npArray_rect (r : List ℚ) (rs : List (List ℚ)) (c : ℕ)
    (hw : ∀ x ∈ r :: rs, x.length = c) :
    npArray (r :: rs) = .ok (.d2 (r :: rs)) := by
  have h : ∀ s ∈ rs, s.length = r.length := fun s hs => by
    rw [hw s (List.mem_cons_of_mem _ hs), hw r (List.mem_cons_self _ _)]
  show (if ∀ s ∈ rs, s.length = r.length then
      (Except.ok (NpArr.d2 (r :: rs)) : Except NpError NpArr)
    else Except.error NpError.raggedArray) = Except.ok (NpArr.d2 (r :: rs))
  rw [if_pos h]

lemma setRowsSuffix_exact (dst : List (List ℚ)) (c k : ℕ) (rs : List (List ℚ))
    (hrs : rs ≠ []) (hm : dst.length - k = rs.length)
    (hw : ∀ x ∈ rs, x.length = c) :
    setRowsSuffix dst c k (.d2 rs) = .ok (dst.take k ++ rs) := by
  obtain ⟨x, xs, rfl⟩ := List.exists_cons_of_ne_nil hrs
  have hhead : (x :: xs).headI.length = c := hw _ (List.mem_cons_self x xs)
  rw [setRowsSuffix, if_pos ⟨Or.inl hm.symm, Or.inl hhead⟩,
    if_pos hm.symm, map_broadcastRow_self c _ hw]

lemma setColSuffix_exact (dst src : List ℚ) (k : ℕ)
    (hm : dst.length - k = src.length) :
    setColSuffix dst k src = .ok (dst.take k ++ src) := by
  rw [setColSuffix, if_pos (Or.inl hm.symm), if_pos hm.symm]


lemma shift_take {α : Type} (l : List α) (n : ℕ) :
    (l.drop n ++ l.drop (l.drop n).length).take (l.drop n).length = l.drop n :=
  List.take_left _ _

lemma shift_len_sub {α : Type} (l : List α) (n : ℕ) (h : n ≤ l.length) :
    (l.drop n ++ l.drop (l.drop n).length).length - (l.drop n).length = n := by
  simp only [List.length_append, List.length_drop]
  omega

lemma getRingbufferValues_ok (chunk : List (List ℚ)) (timestamps : List ℚ)
    (clt off : ℚ) (bufs : Buffers)
    (hn : chunk ≠ [])
    (hw : ∀ x ∈ chunk, x.length = bufs.nch)
    (hnB : chunk.length ≤ bufs.data.length)
    (hts : timestamps.length = chunk.length)
    (hH : bufs.tsHost.length = bufs.data.length)
    (hL : bufs.tsLocal.length = bufs.data.length)
    (hO : bufs.tsOffset.length = bufs.data.length) :
    getRingbufferValues chunk timestamps clt off bufs =
      (none,
       { nch := bufs.nch,
         data := bufs.data.drop chunk.length ++ chunk,
         tsHost := bufs.tsHost.drop chunk.length ++ timestamps,
         tsLocal := bufs.tsLocal.drop chunk.length ++ List.replicate chunk.length clt,
         tsOffset := bufs.tsOffset.drop chunk.length ++ List.replicate chunk.length off }) := by
  obtain ⟨r, rs, rfl⟩ := List.exists_cons_of_ne_nil hn
  unfold getRingbufferValues
  rw [npArray_rect r rs bufs.nch hw]
  dsimp only [NpArr.shape0]
  rw [setRowsSuffix_exact _ _ _ _ hn (shift_len_sub _ _ hnB) hw]
  dsimp only
  rw [setColSuffix_exact _ _ _ (by rw [shift_len_sub _ _ (hH ▸ hnB), hts])]
  dsimp only
  unfold setColSuffixScalar
  rw [shift_take, shift_take, shift_take, shift_take,
    shift_len_sub _ _ (hL ▸ hnB), shift_len_sub _ _ (hO ▸ hnB)]


lemma getRingbufferValues_data (chunk : List (List ℚ)) (timestamps : List ℚ)
    (clt off : ℚ) (bufs : Buffers)
    (hn : chunk ≠ [])
    (hw : ∀ x ∈ chunk, x.length = bufs.nch)
    (hnB : chunk.length ≤ bufs.data.length) :
    (getRingbufferValues chunk timestamps clt off bufs).2.data =
      bufs.data.drop chunk.length ++ chunk := by
  obtain ⟨r, rs, rfl⟩ := List.exists_cons_of_ne_nil hn
  unfold getRingbufferValues
  rw [npArray_rect r rs bufs.nch hw]
  dsimp only [NpArr.shape0]
  rw [setRowsSuffix_exact _ _ _ _ hn (shift_len_sub _ _ hnB) hw]
  dsimp only
  split
  · dsimp only
    rw [shift_take]
  · dsimp only
    rw [shift_take]


/-- C1: for a data buffer of buffer_size rows and a well-formed chunk of n
sample rows with 0 < n <= buffer_size, after getRingbufferValues the last n
rows of the data buffer are the chunk's samples in order and the first
buffer_size - n rows are rows [n : buffer_size) of the previous data
buffer. -/
theorem ringbuffer_append_window (chunk : List (List ℚ)) (timestamps : List ℚ)
    (clt off : ℚ) (bufs : Buffers)
    (hn : 0 < chunk.length)
    (hnB : chunk.length ≤ bufs.data.length)
    (hw : ∀ x ∈ chunk, x.length = bufs.nch) :
    ((getRingbufferValues chunk timestamps clt off bufs).2.data).drop
        (bufs.data.length - chunk.length) = chunk ∧
    ((getRingbufferValues chunk timestamps clt off bufs).2.data).take
        (bufs.data.length - chunk.length) = bufs.data.drop chunk.length := by
  have hd := getRingbufferValues_data chunk timestamps clt off bufs
    (List.length_pos.mp hn) hw hnB
  rw [hd]
  have hlen : (bufs.data.drop chunk.length).length =
      bufs.data.length - chunk.length := List.length_drop _ _
  constructor
  · rw [← hlen, List.drop_left]
  · rw [← hlen, List.take_left]

theorem ringbuffer_append_window_witness :
    0 < ([[(9 : ℚ)]] : List (List ℚ)).length ∧
    ((getRingbufferValues [[9]] [3] 1 0
        ⟨1, [[5], [6], [7]], [0, 0, 0], [0, 0, 0], [0, 0, 0]⟩).2.data).drop 2 =
      [[(9 : ℚ)]] ∧
    ((getRingbufferValues [[9]] [3] 1 0
        ⟨1, [[5], [6], [7]], [0, 0, 0], [0, 0, 0], [0, 0, 0]⟩).2.data).take 2 =
      [[(6 : ℚ)], [7]] := by
  refine ⟨by decide, ?_, ?_⟩
  · exact (ringbuffer_append_window [[9]] [3] 1 0
      ⟨1, [[5], [6], [7]], [0, 0, 0], [0, 0, 0], [0, 0, 0]⟩
      (by decide) (by decide) (by decide)).1
  · have h := (ringbuffer_append_window [[9]] [3] 1 0
      ⟨1, [[5], [6], [7]], [0, 0, 0], [0, 0, 0], [0, 0, 0]⟩
      (by decide) (by decide) (by decide)).2
    simpa using h


/-- C2: on a successful append, all three timestamp columns are shifted with
the same index mapping as the data buffer (each becomes its old rows
[n : buffer_size) followed by the chunk's values), and every row that
originated from the current chunk carries the call's current_local_time in
the local-receipt column and its timestamp_offset in the offset column. -/
theorem timestamp_alignment (chunk : List (List ℚ)) (timestamps : List ℚ)
    (clt off : ℚ) (bufs : Buffers)
    (hn : 0 < chunk.length)
    (hnB : chunk.length ≤ bufs.data.length)
    (hw : ∀ x ∈ chunk, x.length = bufs.nch)
    (hts : timestamps.length = chunk.length)
    (hH : bufs.tsHost.length = bufs.data.length)
    (hL : bufs.tsLocal.length = bufs.data.length)
    (hO : bufs.tsOffset.length = bufs.data.length) :
    (getRingbufferValues chunk timestamps clt off bufs).2.data =
        bufs.data.drop chunk.length ++ chunk ∧
    (getRingbufferValues chunk timestamps clt off bufs).2.tsHost =
        bufs.tsHost.drop chunk.length ++ timestamps ∧
    (getRingbufferValues chunk timestamps clt off bufs).2.tsLocal =
        bufs.tsLocal.drop chunk.length ++ List.replicate chunk.length clt ∧
    (getRingbufferValues chunk timestamps clt off bufs).2.tsOffset =
        bufs.tsOffset.drop chunk.length ++ List.replicate chunk.length off ∧
    ∀ i, bufs.data.length - chunk.length ≤ i → i < bufs.data.length →
      (getRingbufferValues chunk timestamps clt off bufs).2.tsLocal[i]? =
        some clt ∧
      (getRingbufferValues chunk timestamps clt off bufs).2.tsOffset[i]? =
        some off := by
  rw [getRingbufferValues_ok chunk timestamps clt off bufs
    (List.length_pos.mp hn) hw hnB hts hH hL hO]
  refine ⟨rfl, rfl, rfl, rfl, fun i h1 h2 => ?_⟩
  have hlenL : (bufs.tsLocal.drop chunk.length).length =
      bufs.data.length - chunk.length := by
    rw [List.length_drop, hL]
  have hlenO : (bufs.tsOffset.drop chunk.length).length =
      bufs.data.length - chunk.length := by
    rw [List.length_drop, hO]
  constructor
  · rw [List.getElem?_append_right (by omega : (bufs.tsLocal.drop chunk.length).length ≤ i)]
    rw [List.getElem?_replicate]
    rw [if_pos (by omega)]
  · rw [List.getElem?_append_right (by omega : (bufs.tsOffset.drop chunk.length).length ≤ i)]
    rw [List.getElem?_replicate]
    rw [if_pos (by omega)]

theorem timestamp_alignment_witness :
    0 < ([[(9 : ℚ)]] : List (List ℚ)).length ∧
    (getRingbufferValues [[9]] [3] 5 7
        ⟨1, [[1], [2]], [11, 12], [13, 14], [15, 16]⟩).2.tsHost = [12, 3] ∧
    (getRingbufferValues [[9]] [3] 5 7
        ⟨1, [[1], [2]], [11, 12], [13, 14], [15, 16]⟩).2.tsLocal = [14, 5] ∧
    (getRingbufferValues [[9]] [3] 5 7
        ⟨1, [[1], [2]], [11, 12], [13, 14], [15, 16]⟩).2.tsOffset = [16, 7] := by
  have h := timestamp_alignment [[9]] [3] 5 7
    ⟨1, [[1], [2]], [11, 12], [13, 14], [15, 16]⟩
    (by decide) (by decide) (by decide) (by decide) rfl rfl rfl
  exact ⟨by decide, h.2.1, h.2.2.1, h.2.2.2.1⟩

/-- C3: scenario with buffer_size 4 and one channel: appending chunk [5, 6]
at current_local_time 1 and timestamp_offset 1/10 to the all-zero buffers
yields data buffer [0, 0, 5, 6], and rows 2 and 3 of the timestamp buffer
carry local receipt time 1 and clock offset 1/10. -/
theorem append_scenario_buffer4 :
    getRingbufferValues [[5], [6]] [7, 8] 1 (1 / 10)
        ⟨1, [[0], [0], [0], [0]], [0, 0, 0, 0], [0, 0, 0, 0], [0, 0, 0, 0]⟩ =
      (none, ⟨1, [[0], [0], [5], [6]], [0, 0, 7, 8], [0, 0, 1, 1],
        [0, 0, 1 / 10, 1 / 10]⟩) := by
  rw [getRingbufferValues_ok _ _ _ _ _ (by decide) (by decide) (by decide)
    (by decide) rfl rfl rfl]
  rfl


lemma setRowsSuffix_err_width (dst : List (List ℚ)) (c k w : ℕ)
    (rs : List (List ℚ)) (hrs : rs ≠ []) (hw : ∀ x ∈ rs, x.length = w)
    (h1 : w ≠ c) (h2 : w ≠ 1) :
    setRowsSuffix dst c k (.d2 rs) = .error .broadcastMismatch := by
  obtain ⟨x, xs, rfl⟩ := List.exists_cons_of_ne_nil hrs
  have hhead : (x :: xs).headI.length = w := hw _ (List.mem_cons_self x xs)
  rw [setRowsSuffix, if_neg]
  rintro ⟨-, h | h⟩
  · exact h1 (hhead ▸ h)
  · exact h2 (hhead ▸ h)

lemma setRowsSuffix_err_rows (dst : List (List ℚ)) (c k : ℕ)
    (rs : List (List ℚ)) (h1 : rs.length ≠ dst.length - k) (h2 : rs.length ≠ 1) :
    setRowsSuffix dst c k (.d2 rs) = .error .broadcastMismatch := by
  rw [setRowsSuffix, if_neg]
  rintro ⟨h | h, -⟩
  · exact h1 h
  · exact h2 h

lemma setRowsSuffix_err_d1 (dst : List (List ℚ)) (c k : ℕ) (xs : List ℚ)
    (h1 : xs.length ≠ c) (h2 : xs.length ≠ 1) :
    setRowsSuffix dst c k (.d1 xs) = .error .broadcastMismatch := by
  rw [setRowsSuffix, if_neg]
  rintro (h | h)
  · exact h1 h
  · exact h2 h

lemma setColSuffix_err (dst src : List ℚ) (k : ℕ)
    (h1 : src.length ≠ dst.length - k) (h2 : src.length ≠ 1) :
    setColSuffix dst k src = .error .broadcastMismatch := by
  rw [setColSuffix, if_neg]
  rintro (h | h)
  · exact h1 h
  · exact h2 h

lemma getRingbufferValues_width_err (chunk : List (List ℚ))
    (timestamps : List ℚ) (clt off : ℚ) (bufs : Buffers) (w : ℕ)
    (hn : chunk ≠ []) (hw : ∀ x ∈ chunk, x.length = w)
    (h1 : w ≠ bufs.nch) (h2 : w ≠ 1) :
    getRingbufferValues chunk timestamps clt off bufs =
      (some .broadcastMismatch,
       { bufs with data := bufs.data.drop chunk.length ++
           bufs.data.drop (bufs.data.length - chunk.length) }) := by
  obtain ⟨r, rs, rfl⟩ := List.exists_cons_of_ne_nil hn
  unfold getRingbufferValues
  rw [npArray_rect r rs w hw]
  dsimp only [NpArr.shape0]
  rw [setRowsSuffix_err_width _ _ _ w _ hn hw h1 h2]
  dsimp only
  rw [List.length_drop]

lemma getRingbufferValues_ts_err (chunk : List (List ℚ))
    (timestamps : List ℚ) (clt off : ℚ) (bufs : Buffers)
    (hn : chunk ≠ []) (hw : ∀ x ∈ chunk, x.length = bufs.nch)
    (hnB : chunk.length ≤ bufs.data.length)
    (hH : bufs.tsHost.length = bufs.data.length)
    (h1 : timestamps.length ≠ chunk.length) (h2 : timestamps.length ≠ 1) :
    (getRingbufferValues chunk timestamps clt off bufs).1 =
      some NpError.broadcastMismatch := by
  obtain ⟨r, rs, rfl⟩ := List.exists_cons_of_ne_nil hn
  unfold getRingbufferValues
  rw [npArray_rect r rs bufs.nch hw]
  dsimp only [NpArr.shape0]
  rw [setRowsSuffix_exact _ _ _ _ hn (shift_len_sub _ _ hnB) hw]
  dsimp only
  rw [setColSuffix_err _ _ _ (by rw [shift_len_sub _ _ (hH ▸ hnB)]; exact h1) h2]


/-- C4 counterexample: a chunk whose rows have width 1 while the buffer has
channel_count 2 is not rejected: numpy broadcasts the single column across
both channels and the append succeeds. -/
theorem width_mismatch_broadcast_accepted :
    (getRingbufferValues [[5], [6]] [7, 8] 1 0
        ⟨2, [[0, 0], [0, 0], [0, 0], [0, 0]],
          [0, 0, 0, 0], [0, 0, 0, 0], [0, 0, 0, 0]⟩).1 = none ∧
    (getRingbufferValues [[5], [6]] [7, 8] 1 0
        ⟨2, [[0, 0], [0, 0], [0, 0], [0, 0]],
          [0, 0, 0, 0], [0, 0, 0, 0], [0, 0, 0, 0]⟩).2.data =
      [[0, 0], [0, 0], [5, 5], [6, 6]] := by
  decide

/-- C4 amended: the append fails with a broadcast dimension error exactly on
non-broadcastable shapes: when the chunk's row width is neither
channel_count nor 1, or when (for a width-conforming chunk fitting the
buffer) the timestamp sequence's length is neither n nor 1.  Width-1 rows
and length-1 timestamp sequences are silently broadcast instead of being
rejected. -/
theorem nonbroadcastable_chunk_rejected (chunk : List (List ℚ))
    (timestamps : List ℚ) (clt off : ℚ) (bufs : Buffers) (w : ℕ)
    (hn : chunk ≠ []) (hw : ∀ x ∈ chunk, x.length = w)
    (hmis : (w ≠ bufs.nch ∧ w ≠ 1) ∨
      (w = bufs.nch ∧ chunk.length ≤ bufs.data.length ∧
        bufs.tsHost.length = bufs.data.length ∧
        timestamps.length ≠ chunk.length ∧ timestamps.length ≠ 1)) :
    (getRingbufferValues chunk timestamps clt off bufs).1 =
      some NpError.broadcastMismatch := by
  rcases hmis with ⟨h1, h2⟩ | ⟨hww, hnB, hH, h1, h2⟩
  · rw [getRingbufferValues_width_err chunk timestamps clt off bufs w hn hw h1 h2]
  · exact getRingbufferValues_ts_err chunk timestamps clt off bufs hn
      (hww ▸ hw) hnB hH h1 h2

theorem nonbroadcastable_chunk_rejected_witness :
    ([[(5 : ℚ), 6, 7]] : List (List ℚ)) ≠ [] ∧
    (getRingbufferValues [[5, 6, 7]] [9] 1 0
        ⟨1, [[0], [0]], [0, 0], [0, 0], [0, 0]⟩).1 =
      some NpError.broadcastMismatch := by
  refine ⟨by decide, ?_⟩
  exact nonbroadcastable_chunk_rejected [[5, 6, 7]] [9] 1 0
    ⟨1, [[0], [0]], [0, 0], [0, 0], [0, 0]⟩ 3 (by decide) (by decide)
    (Or.inl (by decide))

/-- C5 counterexample: an input on which the append fails but the data
buffer is mutated anyway: a 1-row chunk of width 2 into a 1-channel buffer
of size 2 raises the broadcast error only after the in-place shift has
already overwritten row 0, leaving [[2], [2]] in place of [[1], [2]]. -/
theorem failed_append_mutates_buffer :
    (getRingbufferValues [[3, 4]] [9] 1 0
        ⟨1, [[1], [2]], [0, 0], [0, 0], [0, 0]⟩).1 =
      some NpError.broadcastMismatch ∧
    (getRingbufferValues [[3, 4]] [9] 1 0
        ⟨1, [[1], [2]], [0, 0], [0, 0], [0, 0]⟩).2.data = [[2], [2]] ∧
    (getRingbufferValues [[3, 4]] [9] 1 0
        ⟨1, [[1], [2]], [0, 0], [0, 0], [0, 0]⟩).2.data ≠ [[1], [2]] := by
  decide

/-- C5 amended: append is not all-or-nothing and shapes are not validated
before shifting: when the chunk write fails because the chunk's row width is
not broadcastable, the data buffer has already been left-shifted in place
(rows [n:) moved to the front, with the old trailing rows still in the
trailing slots), while the three timestamp columns are untouched. -/
theorem failed_write_leaves_shifted_data (chunk : List (List ℚ))
    (timestamps : List ℚ) (clt off : ℚ) (bufs : Buffers) (w : ℕ)
    (hn : chunk ≠ []) (hw : ∀ x ∈ chunk, x.length = w)
    (h1 : w ≠ bufs.nch) (h2 : w ≠ 1) :
    (getRingbufferValues chunk timestamps clt off bufs).1 =
      some NpError.broadcastMismatch ∧
    (getRingbufferValues chunk timestamps clt off bufs).2.data =
      bufs.data.drop chunk.length ++
        bufs.data.drop (bufs.data.length - chunk.length) ∧
    (getRingbufferValues chunk timestamps clt off bufs).2.tsHost = bufs.tsHost ∧
    (getRingbufferValues chunk timestamps clt off bufs).2.tsLocal = bufs.tsLocal ∧
    (getRingbufferValues chunk timestamps clt off bufs).2.tsOffset = bufs.tsOffset := by
  rw [getRingbufferValues_width_err chunk timestamps clt off bufs w hn hw h1 h2]
  exact ⟨rfl, rfl, rfl, rfl, rfl⟩

theorem failed_write_leaves_shifted_data_witness :
    ([[(3 : ℚ), 4]] : List (List ℚ)) ≠ [] ∧
    (getRingbufferValues [[3, 4]] [9] 5 7
        ⟨1, [[1], [2], [3]], [0, 0, 0], [0, 0, 0], [0, 0, 0]⟩).2.data =
      [[2], [3], [3]] := by
  refine ⟨by decide, ?_⟩
  have h := (failed_write_leaves_shifted_data [[3, 4]] [9] 5 7
    ⟨1, [[1], [2], [3]], [0, 0, 0], [0, 0, 0], [0, 0, 0]⟩ 2 (by decide)
    (by decide) (by decide) (by decide)).2.1
  simpa using h

/-- C6: a zero-length chunk is rejected by getRingbufferValues rather than
silently accepted as a no-op: np.array([]) has shape (0,), which is not
broadcastable into the empty trailing region of shape (0, channel_count),
so the final data write raises; the buffers are left unchanged. -/
theorem empty_chunk_rejected (timestamps : List ℚ) (clt off : ℚ)
    (bufs : Buffers) (hc : 0 < bufs.nch) :
    (getRingbufferValues [] timestamps clt off bufs).1 =
      some NpError.broadcastMismatch ∧
    (getRingbufferValues [] timestamps clt off bufs).2 = bufs := by
  unfold getRingbufferValues npArray
  dsimp only [NpArr.shape0]
  rw [setRowsSuffix_err_d1 _ _ _ _ (by simpa using Nat.pos_iff_ne_zero.mp hc |>.symm) (by decide)]
  dsimp only
  refine ⟨rfl, ?_⟩
  simp [List.drop_length]

theorem empty_chunk_rejected_witness :
    0 < (1 : ℕ) ∧
    (getRingbufferValues [] [9] 5 7
        ⟨1, [[1], [2]], [0, 0], [0, 0], [0, 0]⟩).1 =
      some NpError.broadcastMismatch := by
  refine ⟨by decide, ?_⟩
  exact (empty_chunk_rejected [9] 5 7
    ⟨1, [[1], [2]], [0, 0], [0, 0], [0, 0]⟩ (by decide)).1


/-- C7: boundary behavior: a chunk with n equal to buffer_size replaces the
entire contents of both buffers; a chunk with n exceeding buffer_size is
rejected deterministically with a broadcast error and both buffers are left
unchanged (no out-of-bounds write, no inconsistent lengths). -/
theorem boundary_replace_and_overflow (chunk : List (List ℚ))
    (timestamps : List ℚ) (clt off : ℚ) (bufs : Buffers)
    (hn : 0 < chunk.length)
    (hB : 0 < bufs.data.length)
    (hw : ∀ x ∈ chunk, x.length = bufs.nch)
    (hts : timestamps.length = chunk.length)
    (hH : bufs.tsHost.length = bufs.data.length)
    (hL : bufs.tsLocal.length = bufs.data.length)
    (hO : bufs.tsOffset.length = bufs.data.length) :
    (chunk.length = bufs.data.length →
      getRingbufferValues chunk timestamps clt off bufs =
        (none, ⟨bufs.nch, chunk, timestamps,
          List.replicate chunk.length clt, List.replicate chunk.length off⟩)) ∧
    (bufs.data.length < chunk.length →
      (getRingbufferValues chunk timestamps clt off bufs).1 =
        some NpError.broadcastMismatch ∧
      (getRingbufferValues chunk timestamps clt off bufs).2 = bufs) := by
  constructor
  · intro h
    rw [getRingbufferValues_ok chunk timestamps clt off bufs
      (List.length_pos.mp hn) hw (le_of_eq h) hts hH hL hO, h]
    simp [List.drop_eq_nil_of_le hH.le, List.drop_eq_nil_of_le hL.le,
      List.drop_eq_nil_of_le hO.le]
  · intro h
    obtain ⟨r, rs, rfl⟩ := List.exists_cons_of_ne_nil (List.length_pos.mp hn)
    have hne1 : (r :: rs).length ≠ 1 := by
      intro he
      rw [he] at h
      omega
    unfold getRingbufferValues
    rw [npArray_rect r rs bufs.nch hw]
    dsimp only [NpArr.shape0]
    rw [List.drop_eq_nil_of_le (le_of_lt h)]
    rw [setRowsSuffix_err_rows _ _ _ _ ?hc1 ?hc2]
    case hc1 =>
      simp only [List.nil_append, List.length_nil, List.drop_zero,
        List.length_cons, Nat.sub_zero]
      simp only [List.length_cons] at h
      omega
    case hc2 => exact hne1
    dsimp only
    refine ⟨rfl, ?_⟩
    simp

theorem boundary_replace_and_overflow_witness :
    0 < ([[(5 : ℚ)], [6]] : List (List ℚ)).length ∧
    getRingbufferValues [[5], [6]] [7, 8] 1 0
        ⟨1, [[1], [2]], [0, 0], [0, 0], [0, 0]⟩ =
      (none, ⟨1, [[5], [6]], [7, 8], [1, 1], [0, 0]⟩) := by
  refine ⟨by decide, ?_⟩
  have h := (boundary_replace_and_overflow [[5], [6]] [7, 8] 1 0
    ⟨1, [[1], [2]], [0, 0], [0, 0], [0, 0]⟩ (by decide) (by decide)
    (by decide) (by decide) rfl rfl rfl).1 (by decide)
  simpa using h


/-- C8: sendDetectedError computes communication_delay as
local_receipt_time - source_timestamp - clock_offset and computation_time as
detection_local_time - local_receipt_time; in particular source_timestamp 10,
local_receipt_time 21/2 and clock_offset 1/20 give communication delay
9/20 (0.45). -/
theorem send_detected_error_timings_formula :
    (∀ host localr offr lct : ℚ,
      sendDetectedErrorTimings (host, localr, offr) lct =
        (localr - host - offr, lct - localr)) ∧
    (sendDetectedErrorTimings (10, 21 / 2, 1 / 20) 11).1 = 9 / 20 := by
  constructor
  · intro host localr offr lct
    rfl
  · norm_num [sendDetectedErrorTimings]

lemma mainLoopRun_err_absorb (dt : ℚ) (polls : List Bool) (s : LoopState)
    (h : s.nameError = true) : mainLoopRun dt s polls = s := by
  induction polls with
  | nil => rfl
  | cons b rest ih =>
      show mainLoopRun dt (mainLoopStep dt s b) rest = s
      rw [mainLoopStep, if_pos h, ih]

lemma mainLoopRun_no_err (dt : ℚ) (polls : List Bool) (s : LoopState)
    (h : s.nameError = false) (ho : s.old_time.isSome) :
    (mainLoopRun dt s polls).nameError = false := by
  induction polls generalizing s with
  | nil => exact h
  | cons b rest ih =>
      show (mainLoopRun dt (mainLoopStep dt s b) rest).nameError = false
      obtain ⟨ot, hot⟩ := Option.isSome_iff_exists.mp ho
      rw [mainLoopStep, if_neg (by rw [h]; exact Bool.false_ne_true)]
      cases b with
      | false =>
          exact ih _ h rfl
      | true =>
          rw [hot]
          exact ih _ h rfl


lemma chain'_append_right {R : ℚ → ℚ → Prop} (l : List ℚ) (a : ℚ)
    (hc : List.Chain' R l) (h : ∀ x ∈ l, R x a) : List.Chain' R (l ++ [a]) := by
  refine hc.append (List.chain'_singleton a) ?_
  intro x hx y hy
  obtain ⟨hne, rfl⟩ := List.mem_getLast?_eq_getLast hx
  have hmem : l.getLast hne ∈ l := List.getLast_mem hne
  simp only [List.head?_cons, Option.mem_def, Option.some.injEq] at hy
  rw [← hy]
  exact h _ hmem

lemma loopInv_step (dt : ℚ) (hdt : 0 ≤ dt) (s : LoopState) (b : Bool)
    (h : LoopInv dt s) : LoopInv dt (mainLoopStep dt s b) := by
  obtain ⟨hchain, hrest⟩ := h
  by_cases he : s.nameError = true
  · rw [mainLoopStep, if_pos he]
    exact ⟨hchain, hrest⟩
  · have he' : s.nameError = false := by
      revert he
      cases s.nameError <;> simp
    obtain ⟨h1, h2, h3⟩ := hrest he'
    rw [mainLoopStep, if_neg he]
    cases b with
    | false =>
        rw [if_neg Bool.false_ne_true]
        refine ⟨hchain, fun _ => ⟨?_, ?_, ?_⟩⟩
        · intro hx
          exact absurd hx (Option.some_ne_none _)
        · intro ot hot
          exact (Option.some.inj hot).symm
        · exact h3
    | true =>
        rw [if_pos rfl]
        cases hot : s.old_time with
        | none =>
            dsimp only
            have hp : s.processed = [] := h1 hot
            constructor
            · rw [hp]
              exact List.chain'_singleton _
            · intro hx
              exact Bool.noConfusion hx
        | some ot =>
            dsimp only
            have hot' : ot = s.now := h2 ot hot
            have hmax : max s.now (ot + dt) = s.now + dt := by
              rw [hot']
              exact max_eq_right (by linarith)
            constructor
            · refine chain'_append_right _ _ hchain ?_
              intro x hx
              exact h3 x hx
            · intro _
              refine ⟨?_, ?_, ?_⟩
              · intro hx
                exact absurd hx (Option.some_ne_none _)
              · intro ot' hot'2
                exact (Option.some.inj hot'2).symm
              · intro x hx
                dsimp only at hx ⊢
                rw [hmax]
                rcases List.mem_append.mp hx with hx | hx
                · have := h3 x hx
                  linarith
                · simp only [List.mem_singleton] at hx
                  rw [hx]

lemma loopInv_run (dt : ℚ) (hdt : 0 ≤ dt) (polls : List Bool) (s : LoopState)
    (h : LoopInv dt s) : LoopInv dt (mainLoopRun dt s polls) := by
  induction polls generalizing s with
  | nil => exact h
  | cons b rest ih =>
      exact ih _ (loopInv_step dt hdt s b h)

lemma loopInv_init (dt t0 : ℚ) : LoopInv dt (initLoopState t0) := by
  refine ⟨List.chain'_nil, fun _ => ⟨fun _ => rfl, ?_, ?_⟩⟩
  · intro ot hot
    exact absurd hot (Option.noConfusion)
  · intro x hx
    exact absurd hx (List.not_mem_nil x)


lemma pairwise_window_len (dt t : ℚ) (l : List ℚ)
    (hp : l.Pairwise (fun a b => a + dt ≤ b))
    (hm : ∀ x ∈ l, t ≤ x ∧ x < t + dt) : l.length ≤ 1 := by
  match l with
  | [] => simp
  | [x] => simp
  | x :: y :: ys =>
      exfalso
      have hxy : x + dt ≤ y := (List.pairwise_cons.mp hp).1 y (by simp)
      have hx := hm x (by simp)
      have hy := hm y (by simp)
      linarith [hx.1, hy.2]

lemma spaced_filter_window (dt : ℚ) (hdt : 0 ≤ dt) (l : List ℚ)
    (hc : List.Chain' (fun a b => a + dt ≤ b) l) (t : ℚ) :
    (l.filter fun x => decide (t ≤ x) && decide (x < t + dt)).length ≤ 1 := by
  haveI : IsTrans ℚ (fun a b : ℚ => a + dt ≤ b) :=
    ⟨fun a b c hab hbc =>
      le_trans hab (le_trans (le_add_of_nonneg_right hdt) hbc)⟩
  rw [List.chain'_iff_pairwise] at hc
  refine pairwise_window_len dt t _ (hc.sublist (List.filter_sublist l)) ?_
  intro x hx
  have hpx := List.of_mem_filter hx
  simpa using hpx

/-- C9: pacing of main's loop under the idealized timing model: the times at
which chunks are processed are always at least dt_read_buffer apart, and
therefore any half-open window of length dt_read_buffer contains at most one
processed chunk, whatever the poll results are (in particular for chunks
offered every 0.01 s with dt_read_buffer = 0.04 s). -/
theorem pacing_min_interval (dt t0 : ℚ) (polls : List Bool) (hdt : 0 < dt) :
    List.Chain' (fun a b => a + dt ≤ b)
      (mainLoopRun dt (initLoopState t0) polls).processed ∧
    ∀ t : ℚ,
      ((mainLoopRun dt (initLoopState t0) polls).processed.filter
        fun x => decide (t ≤ x) && decide (x < t + dt)).length ≤ 1 := by
  have h := loopInv_run dt (le_of_lt hdt) polls (initLoopState t0)
    (loopInv_init dt t0)
  exact ⟨h.1, fun t => spaced_filter_window dt (le_of_lt hdt) _ h.1 t⟩

theorem pacing_min_interval_witness :
    0 < (1 / 25 : ℚ) ∧
    List.Chain' (fun a b => a + (1 / 25 : ℚ) ≤ b)
      (mainLoopRun (1 / 25) (initLoopState 0) [true, true, true]).processed := by
  constructor
  · norm_num
  · exact (pacing_min_interval (1 / 25) 0 [true, true, true] (by norm_num)).1

/-- C10 counterexample: if the very first poll returns no chunk, old_time is
assigned at the end of that iteration, so the first iteration in which
pull_chunk returns a non-empty chunk (here the second) does not raise a
NameError and its chunk is processed. -/
theorem no_nameerror_after_empty_first_poll :
    (mainLoopRun 1 (initLoopState 0) [false, true]).nameError = false ∧
    (mainLoopRun 1 (initLoopState 0) [false, true]).processed = [0] := by
  decide

/-- C10 amended: the throttle comparison raises NameError exactly when the
loop's very first iteration polls a non-empty chunk (old_time is then still
unassigned); if the first poll is empty, old_time is assigned at the end of
that iteration and the run never raises the NameError. -/
theorem nameerror_iff_first_poll_chunk (dt t0 : ℚ) (b : Bool)
    (rest : List Bool) :
    (mainLoopRun dt (initLoopState t0) (b :: rest)).nameError = true ↔
      b = true := by
  cases b with
  | true =>
      constructor
      · intro _
        rfl
      · intro _
        show (mainLoopRun dt (mainLoopStep dt (initLoopState t0) true) rest).nameError = true
        rw [mainLoopRun_err_absorb dt rest (mainLoopStep dt (initLoopState t0) true) rfl]
        rfl
  | false =>
      constructor
      · intro hx
        have h : (mainLoopRun dt (mainLoopStep dt (initLoopState t0) false) rest).nameError = false := by
          exact mainLoopRun_no_err dt rest _ rfl rfl
        rw [show mainLoopRun dt (initLoopState t0) (false :: rest) =
          mainLoopRun dt (mainLoopStep dt (initLoopState t0) false) rest from rfl] at hx
        rw [h] at hx
        exact Bool.noConfusion hx
      · intro hx
        exact Bool.noConfusion hx
